import Mathlib

/-!
A shallow embedding of the in-memory document store implemented by
`InMemoryCollection` in `src/backend/database.py`, together with proofs
about its operations (`find_one`, `find`, `insert_one`, `update_one`,
`count_documents`, `aggregate`).

Modelling conventions:

* JSON-like values are modelled by the inductive type `Value`; floats do
  not occur in the store's code paths and are omitted.
* Python dicts are modelled as association lists in insertion order
  (`Doc` for string-keyed documents, `Store` for the identifier-keyed
  `self.data` mapping).  Dict assignment keeps the position of an
  existing key and appends new keys at the end (`alSet`); `dict.pop`
  removes the entry (`alErase`); `k in d` is key membership
  (`alContains`).
* `deepcopy` is the identity on immutable Lean values, so it is dropped.
* Where the Python code would raise a `TypeError`/`AttributeError`/
  `IndexError` on ill-typed data (e.g. calling `.get` on a non-dict, or
  comparing a string with a non-string), the embedding returns a
  harmless default; theorems that depend on such paths carry
  well-formedness hypotheses restricting them to the defined domain.
* Python string comparison is lexicographic by code point; it is
  modelled by `strLt`/`strLe` on the underlying character lists, which
  agree with Mathlib's linear order on `String` (`strLt_iff`).
-/

namespace DB

/-- JSON-like values stored in documents: null, booleans, integers,
strings, arrays and string-keyed objects (in insertion order). -/
inductive Value where
  | null : Value
  | bool (b : Bool) : Value
  | int (n : Int) : Value
  | str (s : String) : Value
  | arr (elems : List Value) : Value
  | obj (fields : List (String × Value)) : Value
  deriving Repr

mutual

/-- Structural (Python `==`) equality test on values. -/
def Value.beq : Value → Value → Bool
  | .null, .null => true
  | .bool a, .bool b => a == b
  | .int a, .int b => a == b
  | .str a, .str b => a == b
  | .arr as, .arr bs => beqList as bs
  | .obj fs, .obj gs => beqObj fs gs
  | _, _ => false

def beqList : List Value → List Value → Bool
  | [], [] => true
  | a :: as, b :: bs => Value.beq a b && beqList as bs
  | _, _ => false

def beqObj : List (String × Value) → List (String × Value) → Bool
  | [], [] => true
  | (k, v) :: fs, (l, w) :: gs => k == l && Value.beq v w && beqObj fs gs
  | _, _ => false

end

mutual

theorem Value.eq_of_beq : ∀ (a b : Value), Value.beq a b = true → a = b
  | .null, b => by cases b <;> simp [Value.beq]
  | .bool x, b => by cases b <;> simp [Value.beq]
  | .int x, b => by cases b <;> simp [Value.beq]
  | .str x, b => by cases b <;> simp [Value.beq]
  | .arr as, b => by
      cases b <;> simp only [Value.beq, Bool.false_eq_true, false_implies, Value.arr.injEq,
        reduceCtorEq]
      exact fun h => eqList_of_beqList as _ h
  | .obj fs, b => by
      cases b <;> simp only [Value.beq, Bool.false_eq_true, false_implies, Value.obj.injEq,
        reduceCtorEq]
      exact fun h => eqObj_of_beqObj fs _ h

theorem eqList_of_beqList : ∀ (as bs : List Value), beqList as bs = true → as = bs
  | [], bs => by cases bs <;> simp [beqList]
  | a :: as, bs => by
      cases bs with
      | nil => simp [beqList]
      | cons b bs =>
        simp only [beqList, Bool.and_eq_true, List.cons.injEq]
        exact fun h => ⟨Value.eq_of_beq a b h.1, eqList_of_beqList as bs h.2⟩

theorem eqObj_of_beqObj : ∀ (fs gs : List (String × Value)), beqObj fs gs = true → fs = gs
  | [], gs => by cases gs <;> simp [beqObj]
  | (k, v) :: fs, gs => by
      cases gs with
      | nil => simp [beqObj]
      | cons g gs =>
        obtain ⟨l, w⟩ := g
        simp only [beqObj, Bool.and_eq_true, List.cons.injEq, beq_iff_eq, Prod.mk.injEq]
        exact fun h => ⟨⟨h.1.1, Value.eq_of_beq v w h.1.2⟩, eqObj_of_beqObj fs gs h.2⟩

end

mutual

theorem Value.beq_refl : ∀ (a : Value), Value.beq a a = true
  | .null => rfl
  | .bool x => by simp [Value.beq]
  | .int x => by simp [Value.beq]
  | .str x => by simp [Value.beq]
  | .arr as => by simpa [Value.beq] using beqList_refl as
  | .obj fs => by simpa [Value.beq] using beqObj_refl fs

theorem beqList_refl : ∀ (as : List Value), beqList as as = true
  | [] => rfl
  | a :: as => by simp [beqList, Value.beq_refl a, beqList_refl as]

theorem beqObj_refl : ∀ (fs : List (String × Value)), beqObj fs fs = true
  | [] => rfl
  | (k, v) :: fs => by simp [beqObj, Value.beq_refl v, beqObj_refl fs]

end

instance : DecidableEq Value := fun a b =>
  if h : Value.beq a b = true then .isTrue (Value.eq_of_beq a b h)
  else .isFalse (fun he => h (he ▸ Value.beq_refl a))

/-- Lexicographic comparison of character lists, elementwise by code
point with a shorter prefix ordered first; this is how Python compares
strings. -/
def charsLt : List Char → List Char → Bool
  | [], [] => false
  | [], _ :: _ => true
  | _ :: _, [] => false
  | a :: as, b :: bs => if a < b then true else if b < a then false else charsLt as bs

/-- Python `a < b` on strings. -/
def strLt (a b : String) : Bool := charsLt a.data b.data

/-- Python `a <= b` on strings. -/
def strLe (a b : String) : Bool := ! strLt b a

theorem charsLt_iff (as bs : List Char) : charsLt as bs = true ↔ List.Lex (· < ·) as bs := by
  induction as generalizing bs with
  | nil =>
    cases bs with
    | nil => simp [charsLt]
    | cons b bs => simp only [charsLt, true_iff]; exact List.Lex.nil
  | cons a as ih =>
    cases bs with
    | nil =>
      simp only [show charsLt (a :: as) [] = false from rfl, Bool.false_eq_true, false_iff]
      exact List.Lex.not_nil_right _ _
    | cons b bs =>
      simp only [charsLt]
      split
      · simp only [true_iff]
        exact List.Lex.rel (by assumption)
      · split
        · rename_i hab hba
          simp only [Bool.false_eq_true, false_iff]
          intro hlex
          cases hlex with
          | cons h => exact absurd hba (by simp)
          | rel h => exact hab h
        · rename_i hab hba
          have heq : a = b := le_antisymm (not_lt.mp hba) (not_lt.mp hab)
          subst heq
          rw [ih bs]
          exact (List.Lex.cons_iff (r := (· < ·))).symm

theorem strLt_iff (a b : String) : strLt a b = true ↔ a < b := by
  rw [String.lt_iff_toList_lt]
  exact charsLt_iff a.data b.data

theorem strLe_iff (a b : String) : strLe a b = true ↔ a ≤ b := by
  simp only [strLe, Bool.not_eq_true']
  rw [← Bool.not_eq_true, not_iff_comm, strLt_iff, not_le]

/-- A document body: a Python dict from field names to values, kept in
insertion order. -/
abbrev Doc := List (String × Value)

/-- The collection state `self.data`: a Python dict from identifier to
document body, kept in insertion order. -/
abbrev Store := List (Value × Doc)

/-- Python `d[k]` / `d.get(k)` on a dict: the value stored under the
first (only) occurrence of the key. -/
def alGet? {κ α : Type} [DecidableEq κ] : List (κ × α) → κ → Option α
  | [], _ => none
  | (k, v) :: rest, key => if k = key then some v else alGet? rest key

/-- Python `d[k] = v` on a dict: overwrite in place if the key exists,
otherwise append the new entry at the end. -/
def alSet {κ α : Type} [DecidableEq κ] : List (κ × α) → κ → α → List (κ × α)
  | [], key, val => [(key, val)]
  | (k, v) :: rest, key, val =>
    if k = key then (k, val) :: rest else (k, v) :: alSet rest key val

/-- Python `d.pop(k, None)` on a dict: drop the entry with the key. -/
def alErase {κ α : Type} [DecidableEq κ] : List (κ × α) → κ → List (κ × α)
  | [], _ => []
  | (k, v) :: rest, key => if k = key then rest else (k, v) :: alErase rest key

/-- Python `k in d` on a dict. -/
def alContains {κ α : Type} [DecidableEq κ] (l : List (κ × α)) (key : κ) : Bool :=
  (alGet? l key).isSome

/-- Python in-place mutation of the value stored under an existing key
(`d[k].append(...)`); leaves the dict unchanged when the key is absent. -/
def alModify {κ α : Type} [DecidableEq κ] : List (κ × α) → κ → (α → α) → List (κ × α)
  | [], _, _ => []
  | (k, v) :: rest, key, f => if k = key then (k, f v) :: rest else (k, v) :: alModify rest key f

/-- The fields of a value known to be an object.  The Python code only
reaches this on actual dicts; on any other value it would raise, and the
embedding returns `[]` (such runs are excluded by well-formedness
hypotheses where they matter). -/
def Value.asObj : Value → List (String × Value)
  | .obj fs => fs
  | _ => []

/-- The elements of a value known to be an array.  The Python code only
reaches this on actual lists; on any other value it would raise or
iterate differently (e.g. substring tests on strings), and the embedding
returns `[]` (excluded by well-formedness hypotheses where it matters). -/
def Value.asArr : Value → List Value
  | .arr xs => xs
  | _ => []

/-- Python `doc.get(key, dflt)` on a document body. -/
def docGetD (d : Doc) (key : String) (dflt : Value) : Value :=
  (alGet? d key).getD dflt

/-- Python `v.get(key, dflt)` where `v` is a nested dict value. -/
def valGetD (v : Value) (key : String) (dflt : Value) : Value :=
  (alGet? v.asObj key).getD dflt

/-- `find_one` (database.py lines 16-24): identifier-only lookup.  Note
the Python `if doc:` truthiness test, under which an *empty* stored body
is treated like a missing document. -/
def find_one (data : Store) (query : Doc) : Option Doc :=
  match alGet? query "_id" with
  | none => none
  | some qid =>
    match alGet? data qid with
    | none => none
    | some doc => if doc.isEmpty then none else some (alSet doc "_id" qid)

/-- Python `a < b` restricted to the string/string case reached by the
time filters; comparing anything else raises a `TypeError` in the
source and is modelled as `false`. -/
def vLtStr (a b : Value) : Bool :=
  match a, b with
  | .str s, .str t => strLt s t
  | _, _ => false

/-- The document's nested `schedule_details.days` sequence (the
expression of line 40). -/
def docDays (doc : Doc) : List Value :=
  (valGetD (docGetD doc "schedule_details" (.obj [])) "days" (.arr [])).asArr

/-- The document's nested `schedule_details.start_time`, defaulting to
`""` (the expression of line 48). -/
def docStart (doc : Doc) : Value :=
  valGetD (docGetD doc "schedule_details" (.obj [])) "start_time" (.str "")

/-- The document's nested `schedule_details.end_time`, defaulting to
`""` (the expression of line 57). -/
def docEnd (doc : Doc) : Value :=
  valGetD (docGetD doc "schedule_details" (.obj [])) "end_time" (.str "")

/-- Lines 38-41: the `if "$in" in days_query:` handler — the first
element of the `$in` list must occur in the document's nested days
sequence. -/
def matchesDaysInner (daysQuery : Value) (doc : Doc) : Bool :=
  match alGet? daysQuery.asObj "$in" with
  | none => true
  | some inList => decide (inList.asArr.headD .null ∈ docDays doc)

/-- The `schedule_details.days` filter of `find` (lines 36-41). -/
def matchesDays (query doc : Doc) : Bool :=
  match alGet? query "schedule_details.days" with
  | none => true
  | some daysQuery => matchesDaysInner daysQuery doc

/-- Lines 46-50: the `if "$gte" in start_time_query:` handler — the
document is dropped when its start time (missing fields defaulting to
`""`) is `< t`. -/
def matchesStartInner (stq : Value) (doc : Doc) : Bool :=
  match alGet? stq.asObj "$gte" with
  | none => true
  | some required => ! vLtStr (docStart doc) required

/-- The `schedule_details.start_time` filter of `find` (lines 44-50). -/
def matchesStart (query doc : Doc) : Bool :=
  match alGet? query "schedule_details.start_time" with
  | none => true
  | some stq => matchesStartInner stq doc

/-- Lines 55-59: the `if "$lte" in end_time_query:` handler — the
document is dropped when its end time (missing fields defaulting to
`""`) is `> t`. -/
def matchesEndInner (etq : Value) (doc : Doc) : Bool :=
  match alGet? etq.asObj "$lte" with
  | none => true
  | some required => ! vLtStr required (docEnd doc)

/-- The `schedule_details.end_time` filter of `find` (lines 53-59). -/
def matchesEnd (query doc : Doc) : Bool :=
  match alGet? query "schedule_details.end_time" with
  | none => true
  | some etq => matchesEndInner etq doc

/-- The per-document match test of `find`'s loop body (lines 33-59). -/
def docMatches (query doc : Doc) : Bool :=
  matchesDays query doc && matchesStart query doc && matchesEnd query doc

/-- `find` (lines 26-66): scan the store in insertion order, keep the
matching documents, re-attach the identifier (`result["_id"] = doc_id`).
A missing query argument behaves like the empty query `[]`. -/
def find (data : Store) (query : Doc) : List Doc :=
  match data with
  | [] => []
  | (docId, doc) :: rest =>
    if docMatches query doc then alSet doc "_id" docId :: find rest query
    else find rest query

/-- `insert_one` (lines 68-77): reject a document whose `_id` field is
absent or `None` (`document.get("_id")` conflates the two); otherwise
store the body with the `_id` field stripped under the identifier,
overwriting any previous entry, and report the inserted identifier. -/
def insert_one (data : Store) (document : Doc) : Except String (Store × Value) :=
  match alGet? document "_id" with
  | none => .error "Document must have an _id field"
  | some .null => .error "Document must have an _id field"
  | some docId => .ok (alSet data docId (alErase document "_id"), docId)

/-- `doc[key].append(value)` for `$push`: append to an existing array.
On a non-array the source raises; modelled as leaving the value as is
(excluded by well-formedness hypotheses where it matters). -/
def pushValue (v : Value) (x : Value) : Value :=
  match v with
  | .arr xs => .arr (xs ++ [x])
  | other => other

/-- The `$push` handler of `update_one` (lines 91-95): for each
field/value pair, create an empty array if the field is absent, then
append the value. -/
def applyPush (doc : Doc) (items : List (String × Value)) : Doc :=
  items.foldl (fun d kv =>
    let d1 := if alContains d kv.1 then d else alSet d kv.1 (.arr [])
    alModify d1 kv.1 (fun v => pushValue v kv.2)) doc

/-- The `$pull` handler of `update_one` (lines 98-101): for each
field/value pair, when the field holds an array, remove every element
equal to the value. -/
def applyPull (doc : Doc) (items : List (String × Value)) : Doc :=
  items.foldl (fun d kv =>
    match alGet? d kv.1 with
    | some (.arr xs) => alSet d kv.1 (.arr (xs.filter (fun item => item ≠ kv.2)))
    | _ => d) doc

/-- The `$set` handler of `update_one` (lines 104-106): assign each
field/value pair onto the document. -/
def applySet (doc : Doc) (items : List (String × Value)) : Doc :=
  items.foldl (fun d kv => alSet d kv.1 kv.2) doc

/-- Line 91: `if "$push" in update:` run the `$push` handler.  The
operator payload is a dict in the source (`.items()`); a non-dict
payload would raise and is modelled as the empty payload. -/
def applyPushStep (doc update : Doc) : Doc :=
  match alGet? update "$push" with
  | some v => applyPush doc v.asObj
  | none => doc

/-- Line 98: `if "$pull" in update:` run the `$pull` handler. -/
def applyPullStep (doc update : Doc) : Doc :=
  match alGet? update "$pull" with
  | some v => applyPull doc v.asObj
  | none => doc

/-- Line 104: `if "$set" in update:` run the `$set` handler. -/
def applySetStep (doc update : Doc) : Doc :=
  match alGet? update "$set" with
  | some v => applySet doc v.asObj
  | none => doc

/-- The operator application order of `update_one` (lines 90-106):
`$push`, then `$pull`, then `$set`; unrecognized operators are ignored. -/
def applyUpdate (doc : Doc) (update : Doc) : Doc :=
  applySetStep (applyPullStep (applyPushStep doc update) update) update

/-- `update_one` (lines 79-108): no effect and modified count 0 unless
the query has an `_id` key naming a stored identifier; otherwise apply
the update operators to the stored body in place and report modified
count 1. -/
def update_one (data : Store) (query update : Doc) : Store × Nat :=
  match alGet? query "_id" with
  | none => (data, 0)
  | some docId =>
    match alGet? data docId with
    | none => (data, 0)
    | some doc => (alSet data docId (applyUpdate doc update), 1)

/-- `count_documents` (lines 110-114): the full store size for a missing
or empty query, otherwise the length of the corresponding `find`. -/
def count_documents (data : Store) (query : Option Doc) : Nat :=
  match query with
  | none => data.length
  | some q => if q = [] then data.length else (find data q).length

/-- The sort key of `aggregate`'s final `results.sort` (line 128): the
`_id` field of a result entry.  The source compares the raw day values
with `<`; only the all-strings case is defined behavior, and non-string
keys are mapped to `""` (excluded by well-formedness hypotheses). -/
def keyStr (entry : Doc) : String :=
  match alGet? entry "_id" with
  | some (.str s) => s
  | _ => ""

/-- Sorting relation used for `results.sort(key=lambda x: x["_id"])`. -/
def aggLe (e1 e2 : Doc) : Prop := strLe (keyStr e1) (keyStr e2) = true

instance : DecidableRel aggLe := fun _ _ => instDecidableEqBool _ _

instance : IsTotal Doc aggLe :=
  ⟨fun a b => by
    simp only [aggLe, strLe_iff]
    exact le_total _ _⟩

instance : IsTrans Doc aggLe :=
  ⟨fun a b c => by
    simp only [aggLe, strLe_iff]
    exact le_trans⟩

/-- The dedup-collect loop of `aggregate` (lines 121-125) restricted to
one `days` list: wrap each day as `{"_id": day}` and append it unless
already present. -/
def addDays (results : List Doc) (days : List Value) : List Doc :=
  days.foldl (fun rs day => if [("_id", day)] ∈ rs then rs else rs ++ [[("_id", day)]]) results

/-- The days an entry contributes to `aggregate`'s loop (lines 122-123):
the guard `"schedule_details" in doc and "days" in
doc["schedule_details"]` makes an entry without both keys contribute
nothing, and otherwise the loop iterates `doc["schedule_details"]
["days"]` (a non-dict `schedule_details` or non-list `days` would raise
or iterate differently in the source and contributes nothing in the
embedding). -/
def entryDays (entry : Value × Doc) : List Value :=
  match alGet? entry.2 "schedule_details" with
  | some sched =>
    match alGet? sched.asObj "days" with
    | some days => days.asArr
    | none => []
  | none => []

/-- The full dedup-collect loop of `aggregate` (lines 121-125) over the
store: each entry's days are folded through the dedup-append. -/
def collectDays (data : Store) : List Doc :=
  data.foldl (fun results entry => addDays results (entryDays entry)) []

/-- `aggregate` (lines 116-129): ignore the pipeline argument, collect
the distinct `{"_id": day}` entries, and sort them by the day value
(Python's sort is stable, and insertion sort is as well). -/
def aggregate (data : Store) (pipeline : List Value) : List Doc :=
  List.insertionSort aggLe (collectDays data)

/-- Spec-side days handler: the `$in` list's first element must occur
in the document's nested days sequence; later elements are ignored. -/
def specDaysInner (daysQuery : Value) (doc : Doc) : Bool :=
  match alGet? daysQuery.asObj "$in" with
  | some inList =>
    match inList.asArr with
    | d :: _ => decide (d ∈ docDays doc)
    | [] => true
  | none => true

/-- Spec-side days filter, following the claim wording: a
`{"schedule_details.days": {"$in": [...]}}` filter requires the
document's nested days sequence to contain the first element of the
`$in` list; an absent filter is vacuously satisfied. -/
def specDays (query doc : Doc) : Bool :=
  match alGet? query "schedule_details.days" with
  | some dq => specDaysInner dq doc
  | none => true

/-- Spec-side start-time handler: the nested start time must be
lexicographically `≥ t` as a string. -/
def specStartInner (sq : Value) (doc : Doc) : Bool :=
  match alGet? sq.asObj "$gte" with
  | some (.str t) =>
    match docStart doc with
    | .str s => strLe t s
    | _ => true
  | _ => true

/-- Spec-side start-time filter, following the claim wording: a
`{"schedule_details.start_time": {"$gte": t}}` filter requires the
nested start time to be lexicographically `≥ t` as a string. -/
def specStart (query doc : Doc) : Bool :=
  match alGet? query "schedule_details.start_time" with
  | some sq => specStartInner sq doc
  | none => true

/-- Spec-side end-time handler: the nested end time must be
lexicographically `≤ t` as a string. -/
def specEndInner (eq0 : Value) (doc : Doc) : Bool :=
  match alGet? eq0.asObj "$lte" with
  | some (.str t) =>
    match docEnd doc with
    | .str s => strLe s t
    | _ => true
  | _ => true

/-- Spec-side end-time filter, following the claim wording: a
`{"schedule_details.end_time": {"$lte": t}}` filter requires the nested
end time to be lexicographically `≤ t` as a string. -/
def specEnd (query doc : Doc) : Bool :=
  match alGet? query "schedule_details.end_time" with
  | some eq0 => specEndInner eq0 doc
  | none => true

/-- Spec-side filter predicate of `find`: every filter present in the
query is satisfied, and absent filters are vacuously satisfied. -/
def specMatches (query doc : Doc) : Bool :=
  specDays query doc && specStart query doc && specEnd query doc

/-- A nonempty-list test for the `$in` payload. -/
def wfInList : Value → Bool
  | .arr (_ :: _) => true
  | _ => false

/-- A `$in` handler payload on which `days_query["$in"][0]` is
defined. -/
def wfInInner (dq : Value) : Bool :=
  match alGet? dq.asObj "$in" with
  | none => true
  | some inList => wfInList inList

/-- Queries on which the source's `days_query["$in"][0]` is defined: a
`$in` payload, when present, must be a nonempty list (otherwise the
source raises a `TypeError`/`IndexError`). -/
def wfInQuery (query : Doc) : Bool :=
  match alGet? query "schedule_details.days" with
  | none => true
  | some dq => wfInInner dq

/-- All values occurring in any stored document's
`schedule_details.days` sequence, in store scan order (the values the
loop of lines 121-125 visits). -/
def allDays (data : Store) : List Value :=
  data.flatMap entryDays

/-- A value that is a string (a decidable shape test). -/
def isStrVal : Value → Bool
  | .str _ => true
  | _ => false

/-- A document field that is absent or holds an object — the shapes on
which the source's nested `.get` chains are defined. -/
def objOrAbsent (doc : Doc) (key : String) : Bool :=
  match alGet? doc key with
  | none => true
  | some (.obj _) => true
  | some _ => false

/-- A sequence of successful `insert_one` calls starting from a store;
used to state counting over a series of inserts.  Failed inserts (the
source raises there) leave the store unchanged. -/
def insertAll (data : Store) (docs : List Doc) : Store :=
  docs.foldl (fun s d =>
    match insert_one s d with
    | .ok (s', _) => s'
    | .error _ => s) data

section AlistLemmas

variable {κ α : Type} [DecidableEq κ]

theorem alGet?_alSet_self (l : List (κ × α)) (k : κ) (v : α) :
    alGet? (alSet l k v) k = some v := by
  induction l with
  | nil => simp [alSet, alGet?]
  | cons p rest ih =>
    obtain ⟨k', v'⟩ := p
    by_cases h : k' = k
    · subst h
      simp [alSet, alGet?]
    · simp [alSet, alGet?, h, ih]

theorem alGet?_alSet_ne (l : List (κ × α)) (k k' : κ) (v : α) (h : k' ≠ k) :
    alGet? (alSet l k v) k' = alGet? l k' := by
  induction l with
  | nil =>
    simp only [alSet, alGet?]
    exact if_neg (fun he => h he.symm)
  | cons p rest ih =>
    obtain ⟨k0, v0⟩ := p
    by_cases h0 : k0 = k
    · subst h0
      simp only [alSet, if_pos rfl, alGet?]
      rw [if_neg (fun he => h he.symm), if_neg (fun he => h he.symm)]
    · simp only [alSet, if_neg h0, alGet?]
      by_cases h1 : k0 = k'
      · simp [h1]
      · simp [h1, ih]

theorem alGet?_alErase_ne (l : List (κ × α)) (k k' : κ) (h : k' ≠ k) :
    alGet? (alErase l k) k' = alGet? l k' := by
  induction l with
  | nil => simp [alErase]
  | cons p rest ih =>
    obtain ⟨k0, v0⟩ := p
    by_cases h0 : k0 = k
    · subst h0
      have he : alErase ((k0, v0) :: rest) k0 = rest := by simp [alErase]
      rw [he]
      simp only [alGet?]
      rw [if_neg (fun hx => h hx.symm)]
    · simp only [alErase, if_neg h0, alGet?]
      by_cases h1 : k0 = k'
      · simp [h1]
      · simp [h1, ih]

theorem mem_alErase_of_ne (l : List (κ × α)) (k : κ) (kv : κ × α) (hm : kv ∈ l)
    (hne : kv.1 ≠ k) : kv ∈ alErase l k := by
  induction l with
  | nil => simp at hm
  | cons p rest ih =>
    obtain ⟨k0, v0⟩ := p
    by_cases h0 : k0 = k
    · subst h0
      rcases List.mem_cons.mp hm with he | hm'
      · exact absurd (congrArg Prod.fst he) hne
      · simpa [alErase] using hm'
    · rcases List.mem_cons.mp hm with he | hm'
      · simp [alErase, h0, he]
      · simp [alErase, h0, ih hm']

theorem alSet_alSet (l : List (κ × α)) (k : κ) (a b : α) :
    alSet (alSet l k a) k b = alSet l k b := by
  induction l with
  | nil => simp [alSet]
  | cons p rest ih =>
    obtain ⟨k0, v0⟩ := p
    by_cases h0 : k0 = k
    · subst h0
      simp [alSet]
    · simp [alSet, h0, ih]

theorem map_fst_alSet_of_contains (l : List (κ × α)) (k : κ) (v : α)
    (h : alContains l k = true) : (alSet l k v).map Prod.fst = l.map Prod.fst := by
  induction l with
  | nil => simp [alContains, alGet?] at h
  | cons p rest ih =>
    obtain ⟨k0, v0⟩ := p
    by_cases h0 : k0 = k
    · subst h0
      simp [alSet]
    · have h' : alContains rest k = true := by
        simpa [alContains, alGet?, h0] using h
      simp [alSet, h0, ih h']

theorem map_fst_alSet_of_not_contains (l : List (κ × α)) (k : κ) (v : α)
    (h : alContains l k = false) : (alSet l k v).map Prod.fst = l.map Prod.fst ++ [k] := by
  induction l with
  | nil => simp [alSet]
  | cons p rest ih =>
    obtain ⟨k0, v0⟩ := p
    by_cases h0 : k0 = k
    · subst h0
      simp [alContains, alGet?] at h
    · have h' : alContains rest k = false := by
        simpa [alContains, alGet?, h0] using h
      simp [alSet, h0, ih h']

theorem alContains_iff_mem_map_fst (l : List (κ × α)) (k : κ) :
    alContains l k = true ↔ k ∈ l.map Prod.fst := by
  induction l with
  | nil => simp [alContains, alGet?]
  | cons p rest ih =>
    obtain ⟨k0, v0⟩ := p
    by_cases h0 : k0 = k
    · subst h0
      simp [alContains, alGet?]
    · have hstep : alContains ((k0, v0) :: rest) k = alContains rest k := by
        simp [alContains, alGet?, h0]
      rw [hstep, ih]
      simp only [List.map_cons, List.mem_cons]
      constructor
      · exact Or.inr
      · rintro (he | hm)
        · exact absurd he.symm h0
        · exact hm

theorem length_le_length_alSet (l : List (κ × α)) (k : κ) (v : α) :
    l.length ≤ (alSet l k v).length := by
  induction l with
  | nil => simp [alSet]
  | cons p rest ih =>
    obtain ⟨k0, v0⟩ := p
    by_cases h0 : k0 = k
    · subst h0
      simp [alSet]
    · simpa [alSet, h0] using ih

theorem length_alModify (l : List (κ × α)) (k : κ) (f : α → α) :
    (alModify l k f).length = l.length := by
  induction l with
  | nil => simp [alModify]
  | cons p rest ih =>
    obtain ⟨k0, v0⟩ := p
    by_cases h0 : k0 = k
    · subst h0
      simp [alModify]
    · simp [alModify, h0, ih]

theorem alGet?_eq_none_of_not_contains (l : List (κ × α)) (k : κ)
    (h : alContains l k = false) : alGet? l k = none := by
  simpa [alContains, Option.isSome_iff_exists] using h

end AlistLemmas

section OperationLemmas

theorem docMatches_nil_query (doc : Doc) : docMatches [] doc = true := rfl

theorem find_eq_filter_map (data : Store) (query : Doc) :
    find data query =
      (data.filter fun p => docMatches query p.2).map fun p => alSet p.2 "_id" p.1 := by
  induction data with
  | nil => simp [find]
  | cons p rest ih =>
    obtain ⟨docId, doc⟩ := p
    by_cases h : docMatches query doc
    · simp [find, h, ih, List.filter_cons]
    · simp only [Bool.not_eq_true] at h
      simp [find, h, ih, List.filter_cons]

theorem find_nil_query (data : Store) :
    find data [] = data.map fun p => alSet p.2 "_id" p.1 := by
  rw [find_eq_filter_map]
  have hall : ∀ p ∈ data, docMatches [] p.2 = true := fun p _ => docMatches_nil_query p.2
  rw [List.filter_eq_self.mpr hall]

theorem length_le_length_applyPush (doc : Doc) (items : List (String × Value)) :
    doc.length ≤ (applyPush doc items).length := by
  induction items generalizing doc with
  | nil => simp [applyPush]
  | cons kv rest ih =>
    have hstep : doc.length ≤ (alModify (if alContains doc kv.1 then doc
        else alSet doc kv.1 (Value.arr [])) kv.1 (fun v => pushValue v kv.2)).length := by
      rw [length_alModify]
      by_cases h : alContains doc kv.1
      · simp [h]
      · simp only [h, if_false]
        exact length_le_length_alSet doc kv.1 (Value.arr [])
    exact le_trans hstep (ih _)

theorem length_le_length_applyPull (doc : Doc) (items : List (String × Value)) :
    doc.length ≤ (applyPull doc items).length := by
  induction items generalizing doc with
  | nil => simp [applyPull]
  | cons kv rest ih =>
    have hstep : doc.length ≤ ((match alGet? doc kv.1 with
        | some (Value.arr xs) => alSet doc kv.1 (Value.arr (xs.filter (fun item => item ≠ kv.2)))
        | _ => doc) : Doc).length := by
      split
      · exact length_le_length_alSet _ _ _
      · exact le_rfl
    exact le_trans hstep (ih _)

theorem length_le_length_applySet (doc : Doc) (items : List (String × Value)) :
    doc.length ≤ (applySet doc items).length := by
  induction items generalizing doc with
  | nil => simp [applySet]
  | cons kv rest ih =>
    exact le_trans (length_le_length_alSet doc kv.1 kv.2) (ih _)

theorem length_le_length_applyPushStep (doc update : Doc) :
    doc.length ≤ (applyPushStep doc update).length := by
  unfold applyPushStep
  split
  · exact length_le_length_applyPush _ _
  · exact le_rfl

theorem length_le_length_applyPullStep (doc update : Doc) :
    doc.length ≤ (applyPullStep doc update).length := by
  unfold applyPullStep
  split
  · exact length_le_length_applyPull _ _
  · exact le_rfl

theorem length_le_length_applySetStep (doc update : Doc) :
    doc.length ≤ (applySetStep doc update).length := by
  unfold applySetStep
  split
  · exact length_le_length_applySet _ _
  · exact le_rfl

theorem length_le_length_applyUpdate (doc update : Doc) :
    doc.length ≤ (applyUpdate doc update).length :=
  le_trans (length_le_length_applyPushStep doc update)
    (le_trans (length_le_length_applyPullStep _ update) (length_le_length_applySetStep _ update))

theorem applyUpdate_ne_nil (doc update : Doc) (h : doc ≠ []) :
    applyUpdate doc update ≠ [] := by
  have hl : 0 < doc.length := List.length_pos.mpr h
  have := length_le_length_applyUpdate doc update
  exact List.length_pos.mp (lt_of_lt_of_le hl this)

theorem insert_one_ok (data : Store) (document : Doc) (v : Value)
    (hid : alGet? document "_id" = some v) (hnn : v ≠ Value.null) :
    insert_one data document = .ok (alSet data v (alErase document "_id"), v) := by
  unfold insert_one
  rw [hid]
  cases v <;> first | exact absurd rfl hnn | rfl

theorem isEmpty_eq_false_of_ne_nil {α : Type} {l : List α} (h : l ≠ []) :
    l.isEmpty = false := by
  cases l with
  | nil => exact absurd rfl h
  | cons a l => rfl

end OperationLemmas

/-- Claim C1 counterexample: the document `{"_id": "a"}` has a non-null
identifier, yet after inserting it `find_one` with the identifier query
returns the not-found result, because the stored body is empty and the
source's `if doc:` truthiness test treats an empty body as missing. -/
theorem C1_counterexample :
    insert_one [] [("_id", Value.str "a")] =
      .ok ([(Value.str "a", ([] : Doc))], Value.str "a") ∧
    find_one [(Value.str "a", ([] : Doc))] [("_id", Value.str "a")] = none := by
  exact ⟨rfl, rfl⟩

/-- Claim C1 (amended): for every document with a non-null identifier
field and at least one field other than the identifier, inserting it and
then calling `find_one` with a query carrying that identifier returns a
result equal (as a mapping) to the inserted document with the identifier
re-attached, not the not-found result. -/
theorem C1_round_trip (data : Store) (document : Doc) (v : Value) (query : Doc)
    (hid : alGet? document "_id" = some v) (hnn : v ≠ Value.null)
    (hbody : ∃ kv ∈ document, kv.1 ≠ "_id")
    (hq : alGet? query "_id" = some v) :
    ∃ data' r, insert_one data document = .ok (data', v) ∧
      find_one data' query = some r ∧
      ∀ k, alGet? r k = alGet? document k := by
  obtain ⟨kv, hkv, hkvne⟩ := hbody
  have hmem : kv ∈ alErase document "_id" := mem_alErase_of_ne document "_id" kv hkv hkvne
  have hne : alErase document "_id" ≠ [] := by
    intro h0
    rw [h0] at hmem
    simp at hmem
  refine ⟨alSet data v (alErase document "_id"), alSet (alErase document "_id") "_id" v,
    insert_one_ok data document v hid hnn, ?_, ?_⟩
  · simp [find_one, hq, alGet?_alSet_self, isEmpty_eq_false_of_ne_nil hne]
  · intro k
    by_cases hk : k = "_id"
    · subst hk
      rw [alGet?_alSet_self, hid]
    · rw [alGet?_alSet_ne _ _ _ _ hk, alGet?_alErase_ne _ _ _ hk]

/-- Claim C1 witness: the round trip at a concrete document with one
extra field. -/
theorem C1_round_trip_witness :
    ∃ data' r, insert_one [] [("_id", Value.str "a"), ("x", Value.int 1)] =
        .ok (data', Value.str "a") ∧
      find_one data' [("_id", Value.str "a")] = some r ∧
      ∀ k, alGet? r k = alGet? [("_id", Value.str "a"), ("x", Value.int 1)] k :=
  C1_round_trip [] [("_id", Value.str "a"), ("x", Value.int 1)] (Value.str "a")
    [("_id", Value.str "a")] (by decide) (by decide)
    ⟨("x", Value.int 1), by decide, by decide⟩ (by decide)

/-- Claim C2 counterexample: the query carries the identifier field and
a document is stored under that identifier, yet `find_one` returns the
absent result (the stored body is empty, so the source's `if doc:`
truthiness test fails). -/
theorem C2_counterexample :
    alContains [(Value.str "a", ([] : Doc))] (Value.str "a") = true ∧
    alGet? [("_id", Value.str "a")] "_id" = some (Value.str "a") ∧
    find_one [(Value.str "a", ([] : Doc))] [("_id", Value.str "a")] = none := by
  exact ⟨rfl, rfl, rfl⟩

/-- Claim C2 (amended): if the query contains the identifier field, a
document is stored under that identifier, and the stored body is
non-empty, `find_one` returns the body with the identifier re-attached;
the result is absent exactly when the query omits the identifier field,
no document is stored under that identifier, or the stored body is
empty.  No query field other than the identifier affects the result. -/
theorem C2_find_one_contract (data : Store) (query : Doc) :
    (∀ v body, alGet? query "_id" = some v → alGet? data v = some body → body ≠ [] →
      find_one data query = some (alSet body "_id" v)) ∧
    ((find_one data query).isSome ↔
      ∃ v body, alGet? query "_id" = some v ∧ alGet? data v = some body ∧ body ≠ []) ∧
    (∀ query', alGet? query' "_id" = alGet? query "_id" →
      find_one data query' = find_one data query) := by
  refine ⟨?_, ?_, ?_⟩
  · intro v body hq hd hne
    simp [find_one, hq, hd, isEmpty_eq_false_of_ne_nil hne]
  · cases hq : alGet? query "_id" with
    | none => simp [find_one, hq]
    | some v =>
      cases hd : alGet? data v with
      | none => simp [find_one, hq, hd]
      | some body =>
        cases body with
        | nil => simp [find_one, hq, hd]
        | cons kv rest => simp [find_one, hq, hd]
  · intro query' hq
    unfold find_one
    rw [hq]

/-- Claim C2 witness: the contract evaluated on a one-document store. -/
theorem C2_find_one_contract_witness :
    find_one [(Value.str "a", [("x", Value.int 1)])] [("_id", Value.str "a")] =
      some (alSet [("x", Value.int 1)] "_id" (Value.str "a")) :=
  (C2_find_one_contract [(Value.str "a", [("x", Value.int 1)])] [("_id", Value.str "a")]).1
    (Value.str "a") [("x", Value.int 1)] (by decide) (by decide) (by decide)

theorem applyUpdate_congr (doc u u' : Doc)
    (hpush : alGet? u "$push" = alGet? u' "$push")
    (hpull : alGet? u "$pull" = alGet? u' "$pull")
    (hset : alGet? u "$set" = alGet? u' "$set") :
    applyUpdate doc u = applyUpdate doc u' := by
  unfold applyUpdate applyPushStep applyPullStep applySetStep
  rw [hpush, hpull, hset]

/-- Claim C3: `update_one` applies the recognized operators in the fixed
order `$push`, `$pull`, `$set`, regardless of their order in the update
mapping: the result depends only on the three operator payloads (not on
their position), pushing and pulling the same value in one call leaves
the original list unchanged (push happens first, pull removes what was
just pushed — shown in both key orders), and `$set` overrides a `$push`
and is not affected by a `$pull` (set runs last). -/
theorem C3_update_operator_order :
    (∀ (data : Store) (q u u' : Doc),
      alGet? u "$push" = alGet? u' "$push" →
      alGet? u "$pull" = alGet? u' "$pull" →
      alGet? u "$set" = alGet? u' "$set" →
      update_one data q u = update_one data q u') ∧
    (update_one [(Value.str "d", [("tags", Value.arr [Value.str "a"])])]
        [("_id", Value.str "d")]
        [("$push", Value.obj [("tags", Value.str "b")]),
         ("$pull", Value.obj [("tags", Value.str "b")])] =
      ([(Value.str "d", [("tags", Value.arr [Value.str "a"])])], 1)) ∧
    (update_one [(Value.str "d", [("tags", Value.arr [Value.str "a"])])]
        [("_id", Value.str "d")]
        [("$pull", Value.obj [("tags", Value.str "b")]),
         ("$push", Value.obj [("tags", Value.str "b")])] =
      ([(Value.str "d", [("tags", Value.arr [Value.str "a"])])], 1)) ∧
    (update_one [(Value.str "d", [("tags", Value.arr [Value.str "a"])])]
        [("_id", Value.str "d")]
        [("$set", Value.obj [("tags", Value.arr [Value.str "z"])]),
         ("$push", Value.obj [("tags", Value.str "b")])] =
      ([(Value.str "d", [("tags", Value.arr [Value.str "z"])])], 1)) ∧
    (update_one [(Value.str "d", [("tags", Value.arr [Value.str "a"])])]
        [("_id", Value.str "d")]
        [("$set", Value.obj [("tags", Value.arr [Value.str "b", Value.str "b"])]),
         ("$pull", Value.obj [("tags", Value.str "b")])] =
      ([(Value.str "d", [("tags", Value.arr [Value.str "b", Value.str "b"])])], 1)) := by
  refine ⟨?_, by decide, by decide, by decide, by decide⟩
  intro data q u u' hpush hpull hset
  cases hq : alGet? q "_id" with
  | none => simp [update_one, hq]
  | some docId =>
    cases hd : alGet? data docId with
    | none => simp [update_one, hq, hd]
    | some doc => simp [update_one, hq, hd, applyUpdate_congr doc u u' hpush hpull hset]

/-- Claim C3 witness: order-independence applied with the two key orders
of the push/pull update. -/
theorem C3_update_operator_order_witness :
    update_one [(Value.str "d", [("tags", Value.arr [Value.str "a"])])]
        [("_id", Value.str "d")]
        [("$push", Value.obj [("tags", Value.str "b")]),
         ("$pull", Value.obj [("tags", Value.str "b")])] =
      update_one [(Value.str "d", [("tags", Value.arr [Value.str "a"])])]
        [("_id", Value.str "d")]
        [("$pull", Value.obj [("tags", Value.str "b")]),
         ("$push", Value.obj [("tags", Value.str "b")])] :=
  C3_update_operator_order.1 _ _ _ _ (by decide) (by decide) (by decide)

/-- Claim C6: `insert_one` errors exactly when the document's identifier
field is absent or null; on success it stores the body with the
identifier stripped under that identifier without touching other
entries, and inserting two documents with the same identifier leaves
only the second one's body in the store. -/
theorem C6_insert_semantics (data : Store) (document : Doc) :
    ((∃ e, insert_one data document = .error e) ↔
      (alGet? document "_id" = none ∨ alGet? document "_id" = some Value.null)) ∧
    (∀ v, alGet? document "_id" = some v → v ≠ Value.null →
      ∃ data', insert_one data document = .ok (data', v) ∧
        alGet? data' v = some (alErase document "_id") ∧
        ∀ w, w ≠ v → alGet? data' w = alGet? data w) ∧
    (∀ d1 d2 v, alGet? d1 "_id" = some v → v ≠ Value.null → alGet? d2 "_id" = some v →
      ∃ s1 s2, insert_one data d1 = .ok (s1, v) ∧ insert_one s1 d2 = .ok (s2, v) ∧
        s2 = alSet data v (alErase d2 "_id")) := by
  refine ⟨?_, ?_, ?_⟩
  · unfold insert_one
    cases hid : alGet? document "_id" with
    | none => simp
    | some v =>
      cases v <;> simp
  · intro v hid hnn
    refine ⟨alSet data v (alErase document "_id"), insert_one_ok data document v hid hnn,
      alGet?_alSet_self _ _ _, fun w hw => alGet?_alSet_ne _ _ _ _ hw⟩
  · intro d1 d2 v h1 hnn h2
    refine ⟨alSet data v (alErase d1 "_id"), alSet data v (alErase d2 "_id"),
      insert_one_ok data d1 v h1 hnn, ?_, rfl⟩
    rw [insert_one_ok _ d2 v h2 hnn, alSet_alSet]

/-- Claim C6 witness: error on a null identifier, success and overwrite
on a repeated identifier. -/
theorem C6_insert_semantics_witness :
    (∃ e, insert_one [] [("_id", Value.null)] = .error e) ∧
    (∃ s1 s2, insert_one [] [("_id", Value.str "a"), ("x", Value.int 1)] =
        .ok (s1, Value.str "a") ∧
      insert_one s1 [("_id", Value.str "a"), ("x", Value.int 2)] = .ok (s2, Value.str "a") ∧
      s2 = alSet [] (Value.str "a") (alErase [("_id", Value.str "a"), ("x", Value.int 2)] "_id")) :=
  ⟨(C6_insert_semantics [] [("_id", Value.null)]).1.mpr (Or.inr (by decide)),
   (C6_insert_semantics [] [("_id", Value.str "a"), ("x", Value.int 1)]).2.2
     [("_id", Value.str "a"), ("x", Value.int 1)] [("_id", Value.str "a"), ("x", Value.int 2)]
     (Value.str "a") (by decide) (by decide) (by decide)⟩

/-- Claim C7: `update_one` reports modified count 1 exactly when the
query has an `_id` key whose value is a stored identifier (whatever the
update mapping contains), and 0 otherwise; in particular a query without
the identifier field always yields 0. -/
theorem C7_update_modified_count (data : Store) (q u : Doc) :
    ((update_one data q u).2 = 1 ↔
      ∃ v, alGet? q "_id" = some v ∧ alContains data v = true) ∧
    (alGet? q "_id" = none → (update_one data q u).2 = 0) ∧
    ((update_one data q u).2 = 0 ∨ (update_one data q u).2 = 1) := by
  refine ⟨?_, ?_, ?_⟩
  · cases hq : alGet? q "_id" with
    | none => simp [update_one, hq]
    | some docId =>
      cases hd : alGet? data docId with
      | none => simp [update_one, hq, hd, alContains]
      | some doc => simp [update_one, hq, hd, alContains]
  · intro hq
    simp [update_one, hq]
  · cases hq : alGet? q "_id" with
    | none => simp [update_one, hq]
    | some docId =>
      cases hd : alGet? data docId with
      | none => simp [update_one, hq, hd]
      | some doc => simp [update_one, hq, hd]

/-- Claim C7 witness: count 1 on a stored identifier with an
operator-free update, count 0 on a query lacking the identifier. -/
theorem C7_update_modified_count_witness :
    ((update_one [(Value.str "a", [("x", Value.int 1)])] [("_id", Value.str "a")] []).2 = 1) ∧
    ((update_one [(Value.str "a", [("x", Value.int 1)])] [("y", Value.int 3)]
        [("$set", Value.obj [("x", Value.int 2)])]).2 = 0) :=
  ⟨(C7_update_modified_count [(Value.str "a", [("x", Value.int 1)])]
      [("_id", Value.str "a")] []).1.mpr ⟨Value.str "a", by decide, by decide⟩,
   (C7_update_modified_count [(Value.str "a", [("x", Value.int 1)])] [("y", Value.int 3)]
      [("$set", Value.obj [("x", Value.int 2)])]).2.1 (by decide)⟩

theorem bang_vLtStr_str (a : Value) (t : String) :
    (! vLtStr a (.str t)) = (match a with | .str s => strLe t s | _ => true) := by
  cases a <;> rfl

theorem bang_vLtStr_str_left (t : String) (a : Value) :
    (! vLtStr (.str t) a) = (match a with | .str s => strLe s t | _ => true) := by
  cases a <;> rfl

theorem bang_vLtStr_nonstr (a b : Value) (h : ∀ t, b ≠ Value.str t) :
    (! vLtStr a b) = true := by
  cases a <;> cases b <;> first | rfl | exact absurd rfl (h _)

theorem bang_vLtStr_nonstr_left (b a : Value) (h : ∀ t, b ≠ Value.str t) :
    (! vLtStr b a) = true := by
  cases b <;> cases a <;> first | rfl | exact absurd rfl (h _)

theorem matchesStartInner_eq (stq : Value) (doc : Doc) :
    matchesStartInner stq doc = specStartInner stq doc := by
  unfold matchesStartInner specStartInner
  cases alGet? stq.asObj "$gte" with
  | none => rfl
  | some required =>
    cases required with
    | str t => exact bang_vLtStr_str (docStart doc) t
    | null => exact bang_vLtStr_nonstr (docStart doc) _ (fun t => nofun)
    | bool b => exact bang_vLtStr_nonstr (docStart doc) _ (fun t => nofun)
    | int n => exact bang_vLtStr_nonstr (docStart doc) _ (fun t => nofun)
    | arr xs => exact bang_vLtStr_nonstr (docStart doc) _ (fun t => nofun)
    | obj fs => exact bang_vLtStr_nonstr (docStart doc) _ (fun t => nofun)

theorem matchesStart_eq_specStart (query doc : Doc) :
    matchesStart query doc = specStart query doc := by
  unfold matchesStart specStart
  cases alGet? query "schedule_details.start_time" with
  | none => rfl
  | some stq => exact matchesStartInner_eq stq doc

theorem matchesEndInner_eq (etq : Value) (doc : Doc) :
    matchesEndInner etq doc = specEndInner etq doc := by
  unfold matchesEndInner specEndInner
  cases alGet? etq.asObj "$lte" with
  | none => rfl
  | some required =>
    cases required with
    | str t => exact bang_vLtStr_str_left t (docEnd doc)
    | null => exact bang_vLtStr_nonstr_left _ (docEnd doc) (fun t => nofun)
    | bool b => exact bang_vLtStr_nonstr_left _ (docEnd doc) (fun t => nofun)
    | int n => exact bang_vLtStr_nonstr_left _ (docEnd doc) (fun t => nofun)
    | arr xs => exact bang_vLtStr_nonstr_left _ (docEnd doc) (fun t => nofun)
    | obj fs => exact bang_vLtStr_nonstr_left _ (docEnd doc) (fun t => nofun)

theorem matchesEnd_eq_specEnd (query doc : Doc) :
    matchesEnd query doc = specEnd query doc := by
  unfold matchesEnd specEnd
  cases alGet? query "schedule_details.end_time" with
  | none => rfl
  | some etq => exact matchesEndInner_eq etq doc

theorem matchesDaysInner_eq (dq : Value) (doc : Doc) (hwf : wfInInner dq = true) :
    matchesDaysInner dq doc = specDaysInner dq doc := by
  unfold matchesDaysInner specDaysInner
  unfold wfInInner at hwf
  cases hin : alGet? dq.asObj "$in" with
  | none => rfl
  | some inList =>
    rw [hin] at hwf
    cases inList with
    | arr xs =>
      cases xs with
      | nil => simp [wfInList] at hwf
      | cons d rest => rfl
    | null => simp [wfInList] at hwf
    | bool b => simp [wfInList] at hwf
    | int n => simp [wfInList] at hwf
    | str s => simp [wfInList] at hwf
    | obj fs => simp [wfInList] at hwf

theorem matchesDays_eq_specDays (query doc : Doc) (hwf : wfInQuery query = true) :
    matchesDays query doc = specDays query doc := by
  unfold matchesDays specDays
  unfold wfInQuery at hwf
  cases hq : alGet? query "schedule_details.days" with
  | none => rfl
  | some dq =>
    rw [hq] at hwf
    exact matchesDaysInner_eq dq doc hwf

theorem docMatches_eq_specMatches (query doc : Doc) (hwf : wfInQuery query = true) :
    docMatches query doc = specMatches query doc := by
  unfold docMatches specMatches
  rw [matchesDays_eq_specDays query doc hwf, matchesStart_eq_specStart,
    matchesEnd_eq_specEnd]

/-- Claim C4: for every query whose `$in` payload (when present) is a
nonempty list — the source indexes `days_query["$in"][0]` and raises
otherwise — `find` returns exactly the stored documents satisfying every
filter present in the query, with absent filters vacuously satisfied, in
insertion order, each with the identifier re-attached.  The filters are
the spec-side `specDays` (membership of the first `$in` element in the
nested days sequence, later elements ignored), `specStart`
(`start_time` lexicographically `≥` the `$gte` string) and `specEnd`
(`end_time` lexicographically `≤` the `$lte` string). -/
theorem C4_find_filter_semantics (data : Store) (query : Doc)
    (hwf : wfInQuery query = true) :
    find data query =
      (data.filter fun p => specMatches query p.2).map fun p => alSet p.2 "_id" p.1 := by
  rw [find_eq_filter_map]
  congr 1
  apply List.filter_congr
  intro p _
  exact docMatches_eq_specMatches query p.2 hwf

/-- Claim C4 witness: the filter characterization evaluated on the
spec's two example documents, for a days query and a start-time
query. -/
theorem C4_find_filter_semantics_witness :
    (find [(Value.str "A", [("schedule_details", Value.obj
          [("days", Value.arr [Value.str "Monday"]), ("start_time", Value.str "08:00"),
           ("end_time", Value.str "09:00")])]),
        (Value.str "B", [("schedule_details", Value.obj
          [("days", Value.arr [Value.str "Tuesday"]), ("start_time", Value.str "10:00"),
           ("end_time", Value.str "11:00")])])]
        [("schedule_details.days", Value.obj [("$in", Value.arr [Value.str "Monday"])])] =
      (([(Value.str "A", [("schedule_details", Value.obj
          [("days", Value.arr [Value.str "Monday"]), ("start_time", Value.str "08:00"),
           ("end_time", Value.str "09:00")])]),
        (Value.str "B", [("schedule_details", Value.obj
          [("days", Value.arr [Value.str "Tuesday"]), ("start_time", Value.str "10:00"),
           ("end_time", Value.str "11:00")])])] : Store).filter fun p =>
          specMatches [("schedule_details.days", Value.obj
            [("$in", Value.arr [Value.str "Monday"])])] p.2).map
        fun p => alSet p.2 "_id" p.1) ∧
    (find [(Value.str "A", [("schedule_details", Value.obj
          [("days", Value.arr [Value.str "Monday"]), ("start_time", Value.str "08:00"),
           ("end_time", Value.str "09:00")])]),
        (Value.str "B", [("schedule_details", Value.obj
          [("days", Value.arr [Value.str "Tuesday"]), ("start_time", Value.str "10:00"),
           ("end_time", Value.str "11:00")])])]
        [("schedule_details.start_time", Value.obj [("$gte", Value.str "09:00")])] =
      [[("schedule_details", Value.obj
          [("days", Value.arr [Value.str "Tuesday"]), ("start_time", Value.str "10:00"),
           ("end_time", Value.str "11:00")]), ("_id", Value.str "B")]]) :=
  ⟨C4_find_filter_semantics _ _ (by decide), by decide⟩

theorem charsLt_nil_right (as : List Char) : charsLt as [] = false := by
  cases as <;> rfl

theorem strLt_to_empty (t : String) : strLt t "" = false :=
  charsLt_nil_right t.data

theorem strLt_empty_of_ne (t : String) (h : t ≠ "") : strLt "" t = true := by
  obtain ⟨td⟩ := t
  cases td with
  | nil => exact absurd rfl h
  | cons c cs => rfl

/-- Claim C10: within `find`, a stored document whose nested
`schedule_details.start_time` is absent (including when
`schedule_details` itself is absent) is treated as having start time
`""`, so a `{"$gte": t}` filter with non-empty `t` excludes it; a
document lacking `schedule_details.end_time` is treated as having end
time `""`, so a `{"$lte": t}` filter accepts it.  The hypothesis
restricts `schedule_details` to an absent-or-object field, the shapes on
which the source's `.get` chain is defined. -/
theorem C10_missing_time_fields (id : Value) (doc : Doc) (t : String)
    (hsched : objOrAbsent doc "schedule_details" = true) :
    (alGet? (docGetD doc "schedule_details" (.obj [])).asObj "start_time" = none → t ≠ "" →
      find [(id, doc)] [("schedule_details.start_time", .obj [("$gte", .str t)])] = []) ∧
    (alGet? (docGetD doc "schedule_details" (.obj [])).asObj "end_time" = none →
      find [(id, doc)] [("schedule_details.end_time", .obj [("$lte", .str t)])] =
        [alSet doc "_id" id]) := by
  constructor
  · intro hstart hne
    have hds : docStart doc = Value.str "" := by
      unfold docStart valGetD
      rw [hstart]
      rfl
    have hms : matchesStart [("schedule_details.start_time", Value.obj [("$gte", Value.str t)])]
        doc = false := by
      have h1 : matchesStart [("schedule_details.start_time", Value.obj [("$gte", Value.str t)])]
          doc = matchesStartInner (Value.obj [("$gte", Value.str t)]) doc := rfl
      rw [h1]
      have h2 : matchesStartInner (Value.obj [("$gte", Value.str t)]) doc =
          ! vLtStr (docStart doc) (Value.str t) := rfl
      rw [h2, hds]
      show (! strLt "" t) = false
      rw [strLt_empty_of_ne t hne]
      rfl
    have hdm : docMatches [("schedule_details.start_time", Value.obj [("$gte", Value.str t)])]
        doc = false := by
      unfold docMatches
      rw [hms]
      simp
    show (if docMatches [("schedule_details.start_time", Value.obj [("$gte", Value.str t)])] doc
      then alSet doc "_id" id :: find [] _ else find [] _) = []
    rw [hdm]
    rfl
  · intro hend
    have hde : docEnd doc = Value.str "" := by
      unfold docEnd valGetD
      rw [hend]
      rfl
    have hme : matchesEnd [("schedule_details.end_time", Value.obj [("$lte", Value.str t)])]
        doc = true := by
      have h1 : matchesEnd [("schedule_details.end_time", Value.obj [("$lte", Value.str t)])]
          doc = matchesEndInner (Value.obj [("$lte", Value.str t)]) doc := rfl
      rw [h1]
      have h2 : matchesEndInner (Value.obj [("$lte", Value.str t)]) doc =
          ! vLtStr (Value.str t) (docEnd doc) := rfl
      rw [h2, hde]
      show (! strLt t "") = true
      rw [strLt_to_empty t]
      rfl
    have hdm : docMatches [("schedule_details.end_time", Value.obj [("$lte", Value.str t)])]
        doc = true := by
      unfold docMatches
      rw [hme]
      rfl
    show (if docMatches [("schedule_details.end_time", Value.obj [("$lte", Value.str t)])] doc
      then alSet doc "_id" id :: find [] _ else find [] _) = [alSet doc "_id" id]
    rw [hdm]
    rfl

/-- Claim C10 witness: a document with no `schedule_details` at all is
excluded by a `$gte` start-time filter and accepted by a `$lte`
end-time filter. -/
theorem C10_missing_time_fields_witness :
    (find [(Value.str "a", [("x", Value.int 1)])]
        [("schedule_details.start_time", Value.obj [("$gte", Value.str "09:00")])] = []) ∧
    (find [(Value.str "a", [("x", Value.int 1)])]
        [("schedule_details.end_time", Value.obj [("$lte", Value.str "09:00")])] =
      [alSet [("x", Value.int 1)] "_id" (Value.str "a")]) :=
  ⟨(C10_missing_time_fields (Value.str "a") [("x", Value.int 1)] "09:00" (by decide)).1
      (by decide) (by decide),
   (C10_missing_time_fields (Value.str "a") [("x", Value.int 1)] "09:00" (by decide)).2
      (by decide)⟩

theorem find_one_id_query (data : Store) (v : Value) :
    find_one data [("_id", v)] = (match alGet? data v with
      | none => none
      | some doc => if doc.isEmpty then none else some (alSet doc "_id" v)) := rfl

theorem update_one_keys (data : Store) (q u : Doc) :
    (update_one data q u).1.map Prod.fst = data.map Prod.fst := by
  cases hq : alGet? q "_id" with
  | none => simp [update_one, hq]
  | some docId =>
    cases hd : alGet? data docId with
    | none => simp [update_one, hq, hd]
    | some doc =>
      simp only [update_one, hq, hd]
      exact map_fst_alSet_of_contains data docId _ (by simp [alContains, hd])

theorem alGet?_update_one (data : Store) (q u : Doc) (v : Value) :
    alGet? (update_one data q u).1 v = alGet? data v ∨
    (∃ doc, alGet? data v = some doc ∧
      alGet? (update_one data q u).1 v = some (applyUpdate doc u)) := by
  cases hq : alGet? q "_id" with
  | none => left; simp [update_one, hq]
  | some docId =>
    cases hd : alGet? data docId with
    | none => left; simp [update_one, hq, hd]
    | some doc =>
      by_cases hv : v = docId
      · subst hv
        right
        exact ⟨doc, hd, by simp [update_one, hq, hd, alGet?_alSet_self]⟩
      · left
        simp only [update_one, hq, hd]
        exact alGet?_alSet_ne data docId v _ hv

/-- Claim C9: `update_one` never changes the set (or order) of stored
identifiers — even when its `$set` payload targets the `_id` field name
— and any document readable via `find_one` before an update is readable
afterwards with the same reported identifier; a full `find` scan after
an update still reports exactly the stored identifiers, unchanged. -/
theorem C9_identifier_immutable (data : Store) (q u : Doc) :
    ((update_one data q u).1.map Prod.fst = data.map Prod.fst) ∧
    (∀ v r, find_one data [("_id", v)] = some r →
      ∃ r', find_one (update_one data q u).1 [("_id", v)] = some r' ∧
        alGet? r' "_id" = some v ∧ alGet? r "_id" = some v) ∧
    ((find (update_one data q u).1 []).map (fun r => alGet? r "_id") =
      data.map (fun p => some p.1)) := by
  refine ⟨update_one_keys data q u, ?_, ?_⟩
  · intro v r hfo
    rw [find_one_id_query] at hfo
    cases hd0 : alGet? data v with
    | none =>
      rw [hd0] at hfo
      exact absurd hfo (by simp)
    | some body =>
      rw [hd0] at hfo
      have hfo' : (if body.isEmpty then none else some (alSet body "_id" v)) = some r := hfo
      by_cases hbe : body.isEmpty
      · rw [if_pos hbe] at hfo'
        exact absurd hfo' (by simp)
      · rw [if_neg hbe] at hfo'
        have hr : r = alSet body "_id" v := (Option.some.inj hfo').symm
        have hbne : body ≠ [] := by
          intro h0
          subst h0
          exact hbe rfl
        rcases alGet?_update_one data q u v with hsame | ⟨doc, hdoc, hnew⟩
        · refine ⟨alSet body "_id" v, ?_, alGet?_alSet_self _ _ _,
            by rw [hr]; exact alGet?_alSet_self _ _ _⟩
          rw [find_one_id_query, hsame, hd0]
          simp [isEmpty_eq_false_of_ne_nil hbne]
        · have hdb : doc = body := by
            rw [hdoc] at hd0
            exact Option.some.inj hd0
          subst hdb
          refine ⟨alSet (applyUpdate doc u) "_id" v, ?_, alGet?_alSet_self _ _ _,
            by rw [hr]; exact alGet?_alSet_self _ _ _⟩
          rw [find_one_id_query, hnew]
          simp [isEmpty_eq_false_of_ne_nil (applyUpdate_ne_nil doc u hbne)]
  · rw [find_nil_query, List.map_map]
    have hfun : ((fun r => alGet? r "_id") ∘ fun p : Value × Doc => alSet p.2 "_id" p.1) =
        fun p : Value × Doc => some p.1 := by
      funext p
      exact alGet?_alSet_self p.2 "_id" p.1
    rw [hfun]
    calc (update_one data q u).1.map (fun p : Value × Doc => some p.1)
        = ((update_one data q u).1.map Prod.fst).map some := by rw [List.map_map]; rfl
      _ = (data.map Prod.fst).map some := by rw [update_one_keys data q u]
      _ = data.map (fun p : Value × Doc => some p.1) := by rw [List.map_map]; rfl

/-- Claim C9 witness: a `$set` update targeting the `_id` field name
does not change the stored identifier reported by reads. -/
theorem C9_identifier_immutable_witness :
    ((update_one [(Value.str "a", [("x", Value.int 1)])] [("_id", Value.str "a")]
        [("$set", Value.obj [("_id", Value.str "b")])]).1.map Prod.fst =
      ([(Value.str "a", [("x", Value.int 1)])] : Store).map Prod.fst) ∧
    (∃ r', find_one (update_one [(Value.str "a", [("x", Value.int 1)])] [("_id", Value.str "a")]
        [("$set", Value.obj [("_id", Value.str "b")])]).1 [("_id", Value.str "a")] = some r' ∧
      alGet? r' "_id" = some (Value.str "a") ∧
      alGet? [("x", Value.int 1), ("_id", Value.str "a")] "_id" = some (Value.str "a")) :=
  ⟨(C9_identifier_immutable [(Value.str "a", [("x", Value.int 1)])] [("_id", Value.str "a")]
      [("$set", Value.obj [("_id", Value.str "b")])]).1,
   (C9_identifier_immutable [(Value.str "a", [("x", Value.int 1)])] [("_id", Value.str "a")]
      [("$set", Value.obj [("_id", Value.str "b")])]).2.1 (Value.str "a")
      [("x", Value.int 1), ("_id", Value.str "a")] (by decide)⟩

theorem insertAll_keys (docs : List Doc) : ∀ (data : Store),
    (∀ d ∈ docs, ∃ v, alGet? d "_id" = some v ∧ v ≠ Value.null) →
    ((data.map Prod.fst).Nodup → ((insertAll data docs).map Prod.fst).Nodup) ∧
    (∀ w, w ∈ (insertAll data docs).map Prod.fst ↔
      w ∈ data.map Prod.fst ∨ w ∈ docs.filterMap fun d => alGet? d "_id") := by
  induction docs with
  | nil =>
    intro data h
    exact ⟨id, by simp [insertAll]⟩
  | cons d rest ih =>
    intro data h
    obtain ⟨v, hid, hnn⟩ := h d (List.mem_cons_self d rest)
    have hstep : insertAll data (d :: rest) =
        insertAll (alSet data v (alErase d "_id")) rest := by
      simp [insertAll, insert_one_ok data d v hid hnn]
    obtain ⟨ihnodup, ihmem⟩ :=
      ih (alSet data v (alErase d "_id")) (fun d' hd' => h d' (List.mem_cons_of_mem _ hd'))
    constructor
    · intro hnd
      rw [hstep]
      apply ihnodup
      by_cases hc : alContains data v = true
      · rwa [map_fst_alSet_of_contains _ _ _ hc]
      · rw [map_fst_alSet_of_not_contains _ _ _ (by simpa using hc)]
        refine List.Nodup.append hnd (List.nodup_singleton v) ?_
        intro a ha hav
        rw [List.mem_singleton] at hav
        subst hav
        exact hc ((alContains_iff_mem_map_fst data a).mpr ha)
    · intro w
      rw [hstep, ihmem w]
      have hfm : (List.filterMap (fun d => alGet? d "_id") (d :: rest)) =
          v :: List.filterMap (fun d => alGet? d "_id") rest := by
        simp [List.filterMap_cons, hid]
      rw [hfm]
      have hks : w ∈ (alSet data v (alErase d "_id")).map Prod.fst ↔
          w = v ∨ w ∈ data.map Prod.fst := by
        by_cases hc : alContains data v = true
        · rw [map_fst_alSet_of_contains _ _ _ hc]
          constructor
          · exact Or.inr
          · rintro (rfl | hm)
            · exact (alContains_iff_mem_map_fst data w).mp hc
            · exact hm
        · rw [map_fst_alSet_of_not_contains _ _ _ (by simpa using hc)]
          simp only [List.mem_append, List.mem_singleton]
          exact or_comm
      rw [hks]
      simp only [List.mem_cons]
      tauto

/-- Claim C8: `count_documents` returns the store size for an absent or
empty query and the length of the corresponding `find` otherwise; and
after any sequence of successful inserts into an empty store,
`count_documents` with the empty query equals the number of distinct
inserted identifiers (inserts whose identifier was overwritten by a
later insert are not double-counted). -/
theorem C8_count_documents (data : Store) (q : Doc) (docs : List Doc) :
    count_documents data none = data.length ∧
    count_documents data (some []) = data.length ∧
    (q ≠ [] → count_documents data (some q) = (find data q).length) ∧
    ((∀ d ∈ docs, ∃ v, alGet? d "_id" = some v ∧ v ≠ Value.null) →
      count_documents (insertAll [] docs) (some []) =
        (docs.filterMap fun d => alGet? d "_id").dedup.length) := by
  refine ⟨rfl, rfl, ?_, ?_⟩
  · intro hq
    simp [count_documents, hq]
  · intro h
    obtain ⟨hnod, hmem⟩ := insertAll_keys docs [] h
    have hnd : ((insertAll [] docs).map Prod.fst).Nodup := hnod (by simp)
    have hc : count_documents (insertAll [] docs) (some []) =
        ((insertAll [] docs).map Prod.fst).length := by
      simp [count_documents]
    rw [hc, ← List.toFinset_card_of_nodup hnd, ← List.card_toFinset]
    congr 1
    apply Finset.ext
    intro w
    simp only [List.mem_toFinset]
    rw [hmem w]
    simp

/-- Claim C8 witness: counting after two inserts with distinct
identifiers and one overwriting insert. -/
theorem C8_count_documents_witness :
    count_documents
      (insertAll [] [[("_id", Value.str "a"), ("x", Value.int 1)],
        [("_id", Value.str "b")], [("_id", Value.str "a"), ("x", Value.int 2)]])
      (some []) =
    ([[("_id", Value.str "a"), ("x", Value.int 1)], [("_id", Value.str "b")],
        [("_id", Value.str "a"), ("x", Value.int 2)]].filterMap
      fun d => alGet? d "_id").dedup.length :=
  (C8_count_documents [] []
    [[("_id", Value.str "a"), ("x", Value.int 1)], [("_id", Value.str "b")],
     [("_id", Value.str "a"), ("x", Value.int 2)]]).2.2.2
    (by decide)

theorem mem_addDays (days : List Value) : ∀ (results : List Doc) (e : Doc),
    e ∈ addDays results days ↔ e ∈ results ∨ ∃ d ∈ days, e = [("_id", d)] := by
  induction days with
  | nil =>
    intro results e
    simp [addDays]
  | cons d rest ih =>
    intro results e
    have hstep : addDays results (d :: rest) =
        addDays (if [("_id", d)] ∈ results then results else results ++ [[("_id", d)]])
          rest := rfl
    rw [hstep, ih]
    by_cases hmem : [("_id", d)] ∈ results
    · rw [if_pos hmem]
      constructor
      · rintro (h | ⟨d', hd', rfl⟩)
        · exact Or.inl h
        · exact Or.inr ⟨d', List.mem_cons_of_mem _ hd', rfl⟩
      · rintro (h | ⟨d', hd', rfl⟩)
        · exact Or.inl h
        · rcases List.mem_cons.mp hd' with rfl | hd''
          · exact Or.inl hmem
          · exact Or.inr ⟨d', hd'', rfl⟩
    · rw [if_neg hmem]
      simp only [List.mem_append, List.mem_singleton, List.mem_cons, List.mem_nil_iff,
        or_false]
      constructor
      · rintro ((h | h) | ⟨d', hd', rfl⟩)
        · exact Or.inl h
        · exact Or.inr ⟨d, Or.inl rfl, h⟩
        · exact Or.inr ⟨d', Or.inr hd', rfl⟩
      · rintro (h | ⟨d', rfl | hd', rfl⟩)
        · exact Or.inl (Or.inl h)
        · exact Or.inl (Or.inr rfl)
        · exact Or.inr ⟨d', hd', rfl⟩

theorem nodup_addDays (days : List Value) : ∀ (results : List Doc),
    results.Nodup → (addDays results days).Nodup := by
  induction days with
  | nil =>
    intro results h
    simpa [addDays]
  | cons d rest ih =>
    intro results h
    have hstep : addDays results (d :: rest) =
        addDays (if [("_id", d)] ∈ results then results else results ++ [[("_id", d)]])
          rest := rfl
    rw [hstep]
    apply ih
    by_cases hmem : [("_id", d)] ∈ results
    · rwa [if_pos hmem]
    · rw [if_neg hmem]
      refine List.Nodup.append h (List.nodup_singleton _) ?_
      intro a ha hav
      rw [List.mem_singleton] at hav
      subst hav
      exact hmem ha

theorem mem_collect_go (data : Store) : ∀ (results0 : List Doc) (e : Doc),
    e ∈ data.foldl (fun results entry => addDays results (entryDays entry)) results0 ↔
    e ∈ results0 ∨ ∃ d ∈ allDays data, e = [("_id", d)] := by
  induction data with
  | nil =>
    intro results0 e
    simp [allDays]
  | cons entry rest ih =>
    intro results0 e
    rw [List.foldl_cons, ih, mem_addDays]
    have hall : allDays (entry :: rest) = entryDays entry ++ allDays rest := by
      simp [allDays]
    rw [hall]
    simp only [List.mem_append]
    constructor
    · rintro ((h | ⟨d, hd, rfl⟩) | ⟨d, hd, rfl⟩)
      · exact Or.inl h
      · exact Or.inr ⟨d, Or.inl hd, rfl⟩
      · exact Or.inr ⟨d, Or.inr hd, rfl⟩
    · rintro (h | ⟨d, hd | hd, rfl⟩)
      · exact Or.inl (Or.inl h)
      · exact Or.inl (Or.inr ⟨d, hd, rfl⟩)
      · exact Or.inr ⟨d, hd, rfl⟩

theorem nodup_collect_go (data : Store) : ∀ (results0 : List Doc),
    results0.Nodup →
    (data.foldl (fun results entry => addDays results (entryDays entry)) results0).Nodup := by
  induction data with
  | nil =>
    intro r h
    simpa
  | cons entry rest ih =>
    intro r h
    rw [List.foldl_cons]
    exact ih _ (nodup_addDays _ _ h)

theorem mem_collectDays (data : Store) (e : Doc) :
    e ∈ collectDays data ↔ ∃ d ∈ allDays data, e = [("_id", d)] := by
  unfold collectDays
  rw [mem_collect_go]
  simp

theorem nodup_collectDays (data : Store) : (collectDays data).Nodup :=
  nodup_collect_go data [] List.nodup_nil

theorem mem_aggregate (data : Store) (p : List Value) (e : Doc) :
    e ∈ aggregate data p ↔ ∃ d ∈ allDays data, e = [("_id", d)] := by
  unfold aggregate
  rw [(List.perm_insertionSort aggLe (collectDays data)).mem_iff]
  exact mem_collectDays data e

theorem nodup_aggregate (data : Store) (p : List Value) : (aggregate data p).Nodup :=
  ((List.perm_insertionSort aggLe (collectDays data)).nodup_iff).mpr (nodup_collectDays data)

theorem keyStr_entry (s : String) : keyStr [("_id", Value.str s)] = s := rfl

/-- Claim C5: `aggregate` ignores the pipeline argument (any two
pipelines give the same result) and — when every stored day value is a
string, the only case where the source's final sort is defined — returns
exactly one `{"_id": v}` entry for each distinct value `v` occurring in
any stored document's `schedule_details.days` sequence, with no
duplicates, sorted in strictly ascending lexicographic order of `v`. -/
theorem C5_aggregate (data : Store) (p p' : List Value)
    (hwf : ∀ v ∈ allDays data, isStrVal v = true) :
    (aggregate data p = aggregate data p') ∧
    (∀ e ∈ aggregate data p, ∃ s, Value.str s ∈ allDays data ∧ e = [("_id", Value.str s)]) ∧
    (∀ d ∈ allDays data, [("_id", d)] ∈ aggregate data p) ∧
    ((aggregate data p).map keyStr).Sorted (· < ·) := by
  refine ⟨rfl, ?_, ?_, ?_⟩
  · intro e he
    obtain ⟨d, hd, rfl⟩ := (mem_aggregate data p e).mp he
    have hs := hwf d hd
    cases d with
    | str s => exact ⟨s, hd, rfl⟩
    | null => simp [isStrVal] at hs
    | bool b => simp [isStrVal] at hs
    | int n => simp [isStrVal] at hs
    | arr xs => simp [isStrVal] at hs
    | obj fs => simp [isStrVal] at hs
  · intro d hd
    exact (mem_aggregate data p _).mpr ⟨d, hd, rfl⟩
  · have hsorted : List.Sorted aggLe (aggregate data p) :=
      List.sorted_insertionSort aggLe (collectDays data)
    have hle : ((aggregate data p).map keyStr).Sorted (· ≤ ·) := by
      refine List.Pairwise.map keyStr ?_ hsorted
      intro a b hab
      exact (strLe_iff _ _).mp hab
    have hnd : ((aggregate data p).map keyStr).Nodup := by
      refine List.Nodup.map_on ?_ (nodup_aggregate data p)
      intro e1 he1 e2 he2 hk
      obtain ⟨d1, hd1, rfl⟩ := (mem_aggregate data p e1).mp he1
      obtain ⟨d2, hd2, rfl⟩ := (mem_aggregate data p e2).mp he2
      have hs1 := hwf d1 hd1
      have hs2 := hwf d2 hd2
      cases d1 with
      | str s1 =>
        cases d2 with
        | str s2 =>
          have heq : s1 = s2 := by simpa [keyStr_entry] using hk
          rw [heq]
        | null => simp [isStrVal] at hs2
        | bool b => simp [isStrVal] at hs2
        | int n => simp [isStrVal] at hs2
        | arr xs => simp [isStrVal] at hs2
        | obj fs => simp [isStrVal] at hs2
      | null => simp [isStrVal] at hs1
      | bool b => simp [isStrVal] at hs1
      | int n => simp [isStrVal] at hs1
      | arr xs => simp [isStrVal] at hs1
      | obj fs => simp [isStrVal] at hs1
    exact List.Sorted.lt_of_le hle hnd

/-- Claim C5 witness: the spec's example — days `["Monday","Friday"]`
and `["Friday"]` yield exactly `[{"_id":"Friday"},{"_id":"Monday"}]`,
for any pipeline argument. -/
theorem C5_aggregate_witness :
    (aggregate [(Value.str "A", [("schedule_details", Value.obj
          [("days", Value.arr [Value.str "Monday", Value.str "Friday"])])]),
        (Value.str "B", [("schedule_details", Value.obj
          [("days", Value.arr [Value.str "Friday"])])])] [] =
      aggregate [(Value.str "A", [("schedule_details", Value.obj
          [("days", Value.arr [Value.str "Monday", Value.str "Friday"])])]),
        (Value.str "B", [("schedule_details", Value.obj
          [("days", Value.arr [Value.str "Friday"])])])] [Value.int 1]) ∧
    ([("_id", Value.str "Friday")] ∈ aggregate [(Value.str "A", [("schedule_details", Value.obj
          [("days", Value.arr [Value.str "Monday", Value.str "Friday"])])]),
        (Value.str "B", [("schedule_details", Value.obj
          [("days", Value.arr [Value.str "Friday"])])])] []) ∧
    (aggregate [(Value.str "A", [("schedule_details", Value.obj
          [("days", Value.arr [Value.str "Monday", Value.str "Friday"])])]),
        (Value.str "B", [("schedule_details", Value.obj
          [("days", Value.arr [Value.str "Friday"])])])] [] =
      [[("_id", Value.str "Friday")], [("_id", Value.str "Monday")]]) :=
  ⟨(C5_aggregate _ [] [Value.int 1] (by decide)).1,
   (C5_aggregate _ [] [Value.int 1] (by decide)).2.2.1 (Value.str "Friday") (by decide),
   by decide⟩

end DB
